import Mathlib

/-!
# SurvivalGame — verification of the host-authoritative sync core

Shallow embedding of the state-synchronization and interpolation core of the
SurvivalGame repository (main.js multiplayer orchestration, the WebSocket
relay server, and the id-assigning entity managers), together with theorems
settling the frozen claims about it.

Numeric JS values are embedded as elements of a linear ordered field so that
every definition stays computable; theorems about angles instantiate the
`piConst` parameter with `Real.pi`, witnesses evaluate at `ℚ`.
-/

set_option linter.unusedSectionVars false

namespace SurvivalGame

variable {α : Type*} [LinearOrderedField α] [FloorRing α]

/-- The constant PLAYER_SIZE = 0.5 from main.js / player.js. -/
def PLAYER_SIZE : α := 1 / 2

/-- Blend factor computed in the guest render loop (_animateGuest):
elapsed = now - currentStateTime, interval = currentStateTime -
previousStateTime, t = Math.min(Math.max(elapsed / interval, 0), 1). -/
def blendT (now currentStateTime previousStateTime : α) : α :=
  min (max ((now - currentStateTime) / (currentStateTime - previousStateTime)) 0) 1

/-- The angular-difference normalization used by _interpolatePlayerState and
_interpolateGuestEnemies:
`if (rotDiff > Math.PI) rotDiff -= Math.PI * 2; if (rotDiff < -Math.PI) rotDiff += Math.PI * 2;`.
`piConst` stands for the constant Math.PI; it is a parameter so that the
definition is computable at ℚ, and theorems about real angles instantiate it
with `Real.pi`. -/
def wrapAngle (piConst d : α) : α :=
  let d1 := if piConst < d then d - piConst * 2 else d
  if d1 < -piConst then d1 + piConst * 2 else d1

/-- Blended yaw `prev + rotDiff * t` with the normalized difference, exactly
as _interpolatePlayerState computes `playerObj.mesh.rotation.y`. -/
def lerpAngle (piConst a b t : α) : α :=
  a + wrapAngle piConst (b - a) * t

/-- Buff timers carried in a serialized player entry (`bf` field). -/
structure Buffs (α : Type*) where
  dp : α
  sb : α
  ga : α
deriving DecidableEq, Repr

/-- One entry of the `pl` array of a state message (_serializePlayer). -/
structure PState (α : Type*) where
  x : α
  z : α
  fa : α
  hp : α
  mhp : α
  xp : α
  lv : α
  al : Bool
  inv : Bool
  bf : Option (Buffs α)
deriving DecidableEq, Repr

/-- The observable fields of a guest-side player object that
_interpolatePlayerState writes (mesh transform, scalar stats, buffs). -/
structure PlayerObj (α : Type*) where
  posX : α
  posY : α
  posZ : α
  rotX : α
  rotY : α
  visible : Bool
  facingAngle : α
  hp : α
  maxHp : α
  xp : α
  level : α
  alive : Bool
  buffs : Option (Buffs α)
deriving DecidableEq, Repr

/-- _interpolatePlayerState(playerObj, prevS, currS, t): blends x/z position
and yaw between the previous and current snapshot entries, steps every
non-positional field (hp, maxHp, xp, level, alive, buffs) directly from the
current entry, and applies the dead/alive mesh pose.  `now` models the
performance.now() read used for the invincibility flicker. -/
def interpolatePlayerState (piConst now : α) (playerObj : PlayerObj α)
    (prevS currS : PState α) (t : α) : PlayerObj α :=
  let posX := prevS.x + (currS.x - prevS.x) * t
  let posZ := prevS.z + (currS.z - prevS.z) * t
  let rotY := prevS.fa + wrapAngle piConst (currS.fa - prevS.fa) * t
  let buffs : Option (Buffs α) :=
    match currS.bf with
    | some b => some { dp := b.dp, sb := b.sb, ga := b.ga }
    | none => playerObj.buffs
  if currS.al then
    { playerObj with
      posX := posX, posZ := posZ, rotY := rotY,
      facingAngle := currS.fa, hp := currS.hp, maxHp := currS.mhp,
      xp := currS.xp, level := currS.lv, alive := currS.al, buffs := buffs,
      rotX := 0, posY := PLAYER_SIZE * (9 / 10),
      visible := if currS.inv then Int.floor (now / 100) % 2 == 0 else true }
  else
    { playerObj with
      posX := posX, posZ := posZ, rotY := rotY,
      facingAngle := currS.fa, hp := currS.hp, maxHp := currS.mhp,
      xp := currS.xp, level := currS.lv, alive := currS.al, buffs := buffs,
      rotX := -(piConst / 2), posY := 3 / 20,
      visible := true }

/-- C1: in the guest render loop, the blend factor computed from wall-clock
arrival timestamps is clamped to [0,1], and for a player present in both
buffered snapshots the rendered x/z position equals the linear blend
P0 + (P1 - P0) * t, hence (with the same parameter for both coordinates)
lies on the segment between the previous position P0 and the current
position P1, never extrapolated beyond P1. -/
theorem c1_interpolation_bounds (now ct pt piConst : α)
    (playerObj : PlayerObj α) (prevS currS : PState α) :
    0 ≤ blendT now ct pt ∧ blendT now ct pt ≤ 1 ∧
    (interpolatePlayerState piConst now playerObj prevS currS
        (blendT now ct pt)).posX
      = prevS.x + (currS.x - prevS.x) * blendT now ct pt ∧
    (interpolatePlayerState piConst now playerObj prevS currS
        (blendT now ct pt)).posZ
      = prevS.z + (currS.z - prevS.z) * blendT now ct pt ∧
    ∃ s, 0 ≤ s ∧ s ≤ 1 ∧
      (interpolatePlayerState piConst now playerObj prevS currS
          (blendT now ct pt)).posX = prevS.x + (currS.x - prevS.x) * s ∧
      (interpolatePlayerState piConst now playerObj prevS currS
          (blendT now ct pt)).posZ = prevS.z + (currS.z - prevS.z) * s := by
  have h0 : 0 ≤ blendT now ct pt :=
    le_min (le_max_right _ _) zero_le_one
  have h1 : blendT now ct pt ≤ 1 := min_le_right _ _
  have hx : (interpolatePlayerState piConst now playerObj prevS currS
      (blendT now ct pt)).posX
      = prevS.x + (currS.x - prevS.x) * blendT now ct pt := by
    cases hal : currS.al <;> simp [interpolatePlayerState, hal]
  have hz : (interpolatePlayerState piConst now playerObj prevS currS
      (blendT now ct pt)).posZ
      = prevS.z + (currS.z - prevS.z) * blendT now ct pt := by
    cases hal : currS.al <;> simp [interpolatePlayerState, hal]
  exact ⟨h0, h1, hx, hz, blendT now ct pt, h0, h1, hx, hz⟩

/-- C7: during interpolation, the non-positional player fields (hp, maxHp,
xp, level, alive flag) are taken directly from the current snapshot entry
without blending, while the x/z position is linearly blended between the
previous and current entries; the dead pose (rotX) follows the current
snapshot's alive flag immediately. -/
theorem c7_stepped_fields (piConst now t : α) (playerObj : PlayerObj α)
    (prevS currS : PState α) :
    (interpolatePlayerState piConst now playerObj prevS currS t).hp = currS.hp ∧
    (interpolatePlayerState piConst now playerObj prevS currS t).maxHp = currS.mhp ∧
    (interpolatePlayerState piConst now playerObj prevS currS t).xp = currS.xp ∧
    (interpolatePlayerState piConst now playerObj prevS currS t).level = currS.lv ∧
    (interpolatePlayerState piConst now playerObj prevS currS t).alive = currS.al ∧
    (interpolatePlayerState piConst now playerObj prevS currS t).posX
      = prevS.x + (currS.x - prevS.x) * t ∧
    (interpolatePlayerState piConst now playerObj prevS currS t).posZ
      = prevS.z + (currS.z - prevS.z) * t ∧
    (interpolatePlayerState piConst now playerObj prevS currS t).rotX
      = (if currS.al then 0 else -(piConst / 2)) := by
  cases hal : currS.al <;> simp [interpolatePlayerState, hal]

/-- Boss-only fields spread into an enemy entry by _sendGameState. -/
structure BossExtra (α : Type*) where
  bs : String
  bat : String
  bcp : α
  btx : α
  btz : α
deriving DecidableEq, Repr

/-- One entry of the `en` array of a state message. -/
structure EnemyState (α : Type*) where
  id : ℕ
  x : α
  z : α
  y : α
  tk : String
  tn : String
  sz : α
  hp : α
  mhp : α
  ry : α
  fl : α
  boss : Option (BossExtra α)
deriving DecidableEq, Repr

/-- One entry of the `pr` array (player projectiles). -/
structure ProjState (α : Type*) where
  id : ℕ
  x : α
  z : α
deriving DecidableEq, Repr

/-- One entry of the `ep` array (enemy projectiles, `c` is the color hex). -/
structure EnemyProjState (α : Type*) where
  id : ℕ
  x : α
  z : α
  c : ℕ
deriving DecidableEq, Repr

/-- One entry of the `gm` array (experience gems). -/
structure GemState (α : Type*) where
  id : ℕ
  x : α
  y : α
  z : α
deriving DecidableEq, Repr

/-- One entry of the `wv` array (weapon-effect visuals). -/
structure WeaponVisualState (α : Type*) where
  id : ℕ
  t : String
  x : α
  y : α
  z : α
  rz : α
  a : α
  op : α
  oi : ℤ
deriving DecidableEq, Repr

/-- One entry of the `ch` array (chests). -/
structure ChestState (α : Type*) where
  id : ℕ
  x : α
  y : α
  z : α
  bt : String
deriving DecidableEq, Repr

/-- A full state message as built by _sendGameState (the `type:"state"`
envelope tag is constant and omitted). -/
structure Snapshot (α : Type*) where
  gt : α
  tk : α
  go : Bool
  pa : Bool
  pl : List (PState α)
  en : List (EnemyState α)
  pr : List (ProjState α)
  ep : List (EnemyProjState α)
  gm : List (GemState α)
  wv : List (WeaponVisualState α)
  ch : List (ChestState α)
  cw : α
  ba : Bool
  bh : α
  bmh : α
deriving DecidableEq, Repr

/-- Per-element clone of a `pl` entry, as in _deepCloneState. -/
def clonePState (p : PState α) : PState α :=
  { x := p.x, z := p.z, fa := p.fa, hp := p.hp, mhp := p.mhp, xp := p.xp,
    lv := p.lv, al := p.al, inv := p.inv,
    bf := match p.bf with
      | some b => some { dp := b.dp, sb := b.sb, ga := b.ga }
      | none => none }

/-- Per-element clone of an `en` entry, as in _deepCloneState (the boss
fields are copied when present). -/
def cloneEnemyState (e : EnemyState α) : EnemyState α :=
  { id := e.id, x := e.x, z := e.z, y := e.y, tk := e.tk, tn := e.tn,
    sz := e.sz, hp := e.hp, mhp := e.mhp, ry := e.ry, fl := e.fl,
    boss := match e.boss with
      | some b => some { bs := b.bs, bat := b.bat, bcp := b.bcp,
                         btx := b.btx, btz := b.btz }
      | none => none }

/-- _deepCloneState: manual field-by-field structural copy of a state
message (the code avoids JSON round-trips; on values this is the identity,
proved below). -/
def deepCloneState (s : Snapshot α) : Snapshot α :=
  { gt := s.gt, tk := s.tk, go := s.go, pa := s.pa,
    cw := s.cw, ba := s.ba, bh := s.bh, bmh := s.bmh,
    pl := s.pl.map clonePState,
    en := s.en.map cloneEnemyState,
    pr := s.pr.map fun p => { id := p.id, x := p.x, z := p.z },
    gm := s.gm.map fun g => { id := g.id, x := g.x, y := g.y, z := g.z },
    ep := s.ep.map fun p => { id := p.id, x := p.x, z := p.z, c := p.c },
    ch := s.ch.map fun c => { id := c.id, x := c.x, y := c.y, z := c.z, bt := c.bt },
    wv := s.wv.map fun v => { id := v.id, t := v.t, x := v.x, y := v.y,
                              z := v.z, rz := v.rz, a := v.a, op := v.op, oi := v.oi } }

theorem clonePState_eq (p : PState α) : clonePState p = p := by
  cases p with
  | mk x z fa hp mhp xp lv al inv bf => cases bf <;> rfl

theorem cloneEnemyState_eq (e : EnemyState α) : cloneEnemyState e = e := by
  cases e with
  | mk id x z y tk tn sz hp mhp ry fl boss => cases boss <;> rfl

/-- The manual deep clone is the identity on snapshot values. -/
theorem deepCloneState_eq (s : Snapshot α) : deepCloneState s = s := by
  have hp : clonePState (α := α) = id := funext clonePState_eq
  have he : cloneEnemyState (α := α) = id := funext cloneEnemyState_eq
  cases s
  simp [deepCloneState, hp, he]

/-- Guest-side buffered-snapshot state: _currentHostState,
_previousHostState, the two arrival timestamps and the dirty flag. -/
structure GuestNetState (α : Type*) where
  currentHostState : Option (Snapshot α)
  previousHostState : Option (Snapshot α)
  currentStateTime : α
  previousStateTime : α
  stateDirty : Bool
deriving DecidableEq, Repr

/-- Initial guest buffered-snapshot state (module-level initializers of
main.js: null states, both timestamps 0, dirty flag false). -/
def guestNetInit : GuestNetState α :=
  { currentHostState := none, previousHostState := none,
    currentStateTime := 0, previousStateTime := 0, stateDirty := false }

/-- The `case "state"` branch of _handleGuestMessage: if a current snapshot
exists it becomes the previous one (with its arrival time); the incoming
message is cloned into the current slot, stamped with the wall-clock arrival
time `now`, and the dirty flag is raised.  There is no condition on the
incoming message. -/
def handleGuestState (st : GuestNetState α) (msg : Snapshot α) (now : α) :
    GuestNetState α :=
  match st.currentHostState with
  | some c =>
      { currentHostState := some (deepCloneState msg),
        previousHostState := some (deepCloneState c),
        currentStateTime := now,
        previousStateTime := st.currentStateTime,
        stateDirty := true }
  | none =>
      { st with
        currentHostState := some (deepCloneState msg),
        currentStateTime := now,
        stateDirty := true }

/-- A snapshot with the given game time and no entities (used for concrete
evaluations). -/
def snapOnly (gt : ℚ) : Snapshot ℚ :=
  { gt := gt, tk := 0, go := false, pa := false, pl := [], en := [], pr := [],
    ep := [], gm := [], wv := [], ch := [], cw := 0, ba := false, bh := 0,
    bmh := 0 }

/-- C6 counterexample: a snapshot with older content (game time 3, arriving
after one with game time 5) is NOT discarded — it unconditionally becomes
the current snapshot — and when the two arrivals carry the same wall-clock
reading the claimed invariant previousArrivalTime < currentArrivalTime fails
as well. -/
theorem c6_counterexample :
    (handleGuestState (handleGuestState guestNetInit (snapOnly 5) 100)
        (snapOnly 3) 100).currentHostState = some (snapOnly 3) ∧
    (snapOnly 3).gt < (snapOnly 5).gt ∧
    ¬((handleGuestState (handleGuestState guestNetInit (snapOnly 5) 100)
          (snapOnly 3) 100).previousStateTime <
        (handleGuestState (handleGuestState guestNetInit (snapOnly 5) 100)
            (snapOnly 3) 100).currentStateTime) := by
  refine ⟨?_, by norm_num [snapOnly], ?_⟩
  · simp [handleGuestState, guestNetInit, deepCloneState_eq]
  · simp [handleGuestState, guestNetInit, deepCloneState_eq]

/-- C6 amended: the guest rotates the interpolation window forward on every
snapshot arrival, unconditionally (there is no staleness check, so an
out-of-order snapshot is not discarded): the old current snapshot becomes
the previous one keeping its arrival time, and the new message becomes the
current snapshot stamped with its wall-clock arrival time; consequently the
invariant previousArrivalTime < currentArrivalTime holds whenever the new
arrival's wall-clock time is strictly greater than the previous arrival's. -/
theorem c6_window_rotation (st : GuestNetState α) (msg : Snapshot α)
    (now : α) (c : Snapshot α) (hc : st.currentHostState = some c) :
    (handleGuestState st msg now).previousHostState = some c ∧
    (handleGuestState st msg now).previousStateTime = st.currentStateTime ∧
    (handleGuestState st msg now).currentHostState = some msg ∧
    (handleGuestState st msg now).currentStateTime = now ∧
    (st.currentStateTime < now →
      (handleGuestState st msg now).previousStateTime <
        (handleGuestState st msg now).currentStateTime) := by
  simp [handleGuestState, hc, deepCloneState_eq]

/-- Witness for c6_window_rotation at a concrete guest state. -/
theorem c6_window_rotation_witness :
    ((handleGuestState guestNetInit (snapOnly 5) 100).currentHostState
        = some (snapOnly 5)) ∧
    ((handleGuestState (handleGuestState guestNetInit (snapOnly 5) 100)
        (snapOnly 7) 150).previousHostState = some (snapOnly 5) ∧
      (handleGuestState (handleGuestState guestNetInit (snapOnly 5) 100)
          (snapOnly 7) 150).previousStateTime
        = (handleGuestState guestNetInit (snapOnly 5) 100).currentStateTime ∧
      (handleGuestState (handleGuestState guestNetInit (snapOnly 5) 100)
          (snapOnly 7) 150).currentHostState = some (snapOnly 7) ∧
      (handleGuestState (handleGuestState guestNetInit (snapOnly 5) 100)
          (snapOnly 7) 150).currentStateTime = 150 ∧
      ((handleGuestState guestNetInit (snapOnly 5) 100).currentStateTime < 150 →
        (handleGuestState (handleGuestState guestNetInit (snapOnly 5) 100)
            (snapOnly 7) 150).previousStateTime <
          (handleGuestState (handleGuestState guestNetInit (snapOnly 5) 100)
              (snapOnly 7) 150).currentStateTime)) :=
  ⟨by simp [handleGuestState, guestNetInit, deepCloneState_eq],
    c6_window_rotation (handleGuestState guestNetInit (snapOnly 5) 100)
      (snapOnly 7) 150 (snapOnly 5)
      (by simp [handleGuestState, guestNetInit, deepCloneState_eq])⟩

section MapOps

variable {β : Type*}

/-- Lookup on an insertion-ordered association list (guest-side JS Map). -/
def mlookup (m : List (ℕ × β)) (i : ℕ) : Option β :=
  match m with
  | [] => none
  | p :: rest => if p.1 = i then some p.2 else mlookup rest i

/-- Key list of an association list, in JS Map iteration order. -/
def mkeys (m : List (ℕ × β)) : List ℕ :=
  m.map Prod.fst

/-- JS Map.set: replace the entry in place when the key is present, append
at the end otherwise. -/
def mset (m : List (ℕ × β)) (i : ℕ) (v : β) : List (ℕ × β) :=
  if (mlookup m i).isSome then
    m.map fun p => if p.1 = i then (i, v) else p
  else
    m ++ [(i, v)]

theorem mlookup_isSome_iff (m : List (ℕ × β)) (i : ℕ) :
    (mlookup m i).isSome ↔ i ∈ mkeys m := by
  induction m with
  | nil => simp [mlookup, mkeys]
  | cons p rest ih =>
      by_cases h : p.1 = i
      · simp [mlookup, mkeys, h]
      · have hne : ¬(i = p.1) := fun hh => h hh.symm
        simp [mlookup, mkeys, h, hne, ih]

theorem mlookup_map_ne (m : List (ℕ × β)) (i j : ℕ) (v : β) (hij : j ≠ i) :
    mlookup (m.map fun p => if p.1 = i then (i, v) else p) j = mlookup m j := by
  induction m with
  | nil => rfl
  | cons p rest ih =>
      by_cases h : p.1 = i
      · have hne : ¬(i = j) := fun hh => hij hh.symm
        have hpj : ¬(p.1 = j) := by rw [h]; exact hne
        simp [mlookup, h, hne, hpj, ih]
      · by_cases hpj : p.1 = j <;> simp [mlookup, h, hpj, hij, ih]

theorem mlookup_mem_map_self (m : List (ℕ × β)) (i : ℕ) (v : β)
    (hm : i ∈ mkeys m) :
    mlookup (m.map fun p => if p.1 = i then (i, v) else p) i = some v := by
  induction m with
  | nil => simp [mkeys] at hm
  | cons p rest ih =>
      by_cases h : p.1 = i
      · simp [mlookup, h]
      · have hrest : i ∈ mkeys rest := by
          rcases (by simpa [mkeys] using hm : i = p.1 ∨ i ∈ mkeys rest) with h1 | h2
          · exact absurd h1.symm h
          · exact h2
        simp [mlookup, h, ih hrest]

theorem mlookup_append_single (m : List (ℕ × β)) (i j : ℕ) (v : β) :
    mlookup (m ++ [(i, v)]) j =
      if (mlookup m j).isSome then mlookup m j
      else if i = j then some v else none := by
  induction m with
  | nil => simp [mlookup]
  | cons p rest ih =>
      by_cases hpj : p.1 = j <;> simp [mlookup, hpj, ih]

theorem mlookup_mset (m : List (ℕ × β)) (i j : ℕ) (v : β) :
    mlookup (mset m i v) j = if j = i then some v else mlookup m j := by
  by_cases hp : (mlookup m i).isSome
  · rw [mset, if_pos hp]
    by_cases hj : j = i
    · subst hj
      rw [if_pos rfl]
      exact mlookup_mem_map_self m j v ((mlookup_isSome_iff m j).mp hp)
    · rw [mlookup_map_ne m i j v hj, if_neg hj]
  · rw [mset, if_neg hp, mlookup_append_single]
    by_cases hj : j = i
    · subst hj
      have hnone : mlookup m j = none := by
        cases hml : mlookup m j with
        | none => rfl
        | some w => rw [hml] at hp; simp at hp
      simp [hnone]
    · have hne : ¬(i = j) := fun hh => hj hh.symm
      by_cases hs : (mlookup m j).isSome
      · simp [hs, hj]
      · cases hml : mlookup m j with
        | none => simp [hml, hne, hj]
        | some w => rw [hml] at hs; simp at hs

theorem mkeys_mset_of_mem (m : List (ℕ × β)) (i : ℕ) (v : β)
    (h : (mlookup m i).isSome) : mkeys (mset m i v) = mkeys m := by
  rw [mset, if_pos h]
  simp only [mkeys, List.map_map]
  congr 1
  funext p
  by_cases hpi : p.1 = i <;> simp [Function.comp, hpi]

theorem mkeys_mset_nodup (m : List (ℕ × β)) (i : ℕ) (v : β)
    (h : (mkeys m).Nodup) : (mkeys (mset m i v)).Nodup := by
  by_cases hp : (mlookup m i).isSome
  · rw [mkeys_mset_of_mem m i v hp]; exact h
  · rw [mset, if_neg hp]
    have hk : mkeys (m ++ [(i, v)]) = mkeys m ++ [i] := by simp [mkeys]
    rw [hk]
    have hi : i ∉ mkeys m := fun hm => hp ((mlookup_isSome_iff m i).mpr hm)
    simp [List.nodup_append, h, hi]

theorem mlookup_filter_key (m : List (ℕ × β)) (q : ℕ → Bool) (i : ℕ) :
    mlookup (m.filter fun p => q p.1) i = if q i then mlookup m i else none := by
  induction m with
  | nil => cases hq : q i <;> simp [mlookup, hq]
  | cons p rest ih =>
      by_cases hpi : p.1 = i
      · subst hpi
        cases hq : q p.1 <;> simp [mlookup, List.filter_cons, hq, ih]
      · cases hq : q p.1 <;> cases hqi : q i <;>
          simp [mlookup, List.filter_cons, hq, hqi, hpi, ih]

theorem mkeys_filter_nodup (m : List (ℕ × β)) (f : ℕ × β → Bool)
    (h : (mkeys m).Nodup) : (mkeys (m.filter f)).Nodup := by
  exact List.Nodup.sublist ((List.filter_sublist m).map Prod.fst) h

/-- JS `delete obj[key]` on an association-list-modelled object. -/
def mdelete (m : List (ℕ × β)) (i : ℕ) : List (ℕ × β) :=
  m.filter fun p => decide (p.1 ≠ i)

theorem mlookup_mdelete (m : List (ℕ × β)) (i j : ℕ) :
    mlookup (mdelete m i) j = if j = i then none else mlookup m j := by
  rw [mdelete, mlookup_filter_key m (fun n => decide (n ≠ i)) j]
  by_cases hj : j = i <;> simp [hj]

end MapOps

/-- The fields of a _guestEnemyMap entry that the synchronizer and the
interpolator read or write: the cached type data captured on creation and
the mesh transform / visibility / flash state.  The renderable handle and
the random animation offset are external rendering collaborators. -/
structure GuestEnemyEntry (α : Type*) where
  typeKey : String
  typeName : String
  size : α
  posX : α
  posY : α
  posZ : α
  rotY : α
  visible : Bool
  flashed : Bool
deriving DecidableEq, Repr

/-- Construction of a new proxy on first sight of an id in _syncGuestEnemies
(createEnemyModel(es.tk, es.sz) plus the cached fields of the entry). -/
def newGuestEnemyEntry (e : EnemyState α) : GuestEnemyEntry α :=
  { typeKey := e.tk, typeName := e.tn, size := e.sz,
    posX := e.x, posY := e.y, posZ := e.z, rotY := e.ry,
    visible := true, flashed := false }

/-- The per-entry body of the first loop of _syncGuestEnemies: fetch or
create the proxy for es.id, then write position, yaw, visibility and flash
state from the snapshot entry. -/
def syncEnemyStep (m : List (ℕ × GuestEnemyEntry α)) (e : EnemyState α) :
    List (ℕ × GuestEnemyEntry α) :=
  let entry := match mlookup m e.id with
    | some old => old
    | none => newGuestEnemyEntry e
  mset m e.id
    { entry with posX := e.x, posY := e.y, posZ := e.z, rotY := e.ry,
                 visible := true, flashed := decide (0 < e.fl) }

/-- _syncGuestEnemies(enemyStates, …): create/update a proxy for every id
present in the snapshot's enemy array, then delete every registered proxy
whose id is not in the present-set. -/
def syncGuestEnemies (enemyStates : List (EnemyState α))
    (m : List (ℕ × GuestEnemyEntry α)) : List (ℕ × GuestEnemyEntry α) :=
  let m1 := enemyStates.foldl syncEnemyStep m
  m1.filter fun p => decide (p.1 ∈ enemyStates.map EnemyState.id)

/-- The per-entry body of the current-snapshot loop of
_interpolateGuestEnemies: proxies missing from the map are skipped
(`if (!entry) continue`); an entry whose id is absent from the previous
snapshot snaps to the current position, otherwise position and yaw are
blended with factor t. -/
def interpolateEnemyStep (piConst t : α)
    (prevMap : List (ℕ × EnemyState α)) (m : List (ℕ × GuestEnemyEntry α))
    (e : EnemyState α) : List (ℕ × GuestEnemyEntry α) :=
  match mlookup m e.id with
  | none => m
  | some entry =>
      let entry2 := match mlookup prevMap e.id with
        | none =>
            { entry with posX := e.x, posY := e.y, posZ := e.z, rotY := e.ry }
        | some pe =>
            { entry with
              posX := pe.x + (e.x - pe.x) * t,
              posY := pe.y + (e.y - pe.y) * t,
              posZ := pe.z + (e.z - pe.z) * t,
              rotY := pe.ry + wrapAngle piConst (e.ry - pe.ry) * t }
      mset m e.id { entry2 with visible := true, flashed := decide (0 < e.fl) }

/-- _interpolateGuestEnemies(prevEnemyStates, currEnemyStates, …, t): blend
every proxy present in the current snapshot (building a by-id map of the
previous snapshot first) and hide the proxies of absent ids; no proxy is
created or deleted here. -/
def interpolateGuestEnemies (piConst : α)
    (prevEnemyStates currEnemyStates : List (EnemyState α)) (t : α)
    (m : List (ℕ × GuestEnemyEntry α)) : List (ℕ × GuestEnemyEntry α) :=
  let prevMap := prevEnemyStates.foldl (fun acc pe => mset acc pe.id pe) []
  let m1 := currEnemyStates.foldl (interpolateEnemyStep piConst t prevMap) m
  m1.map fun p =>
    if p.1 ∈ currEnemyStates.map EnemyState.id then p
    else (p.1, { p.2 with visible := false })

/-- The guest session slice relevant to enemy proxies: the buffered
snapshots and the enemy proxy map. -/
structure GuestEnemySession (α : Type*) where
  net : GuestNetState α
  enemyMap : List (ℕ × GuestEnemyEntry α)

/-- The enemy-proxy slice of one _animateGuest frame: nothing happens until
a snapshot exists; the first snapshot ever is applied directly (sync, t=1)
and duplicated into the previous slot; in the steady state, lifecycle
synchronization against the freshly arrived snapshot runs first (when the
dirty flag is set), and only afterwards does positional interpolation run,
guarded by currentStateTime > previousStateTime. -/
def animateGuestEnemyFrame (piConst now : α) (s : GuestEnemySession α) :
    GuestEnemySession α :=
  match s.net.currentHostState with
  | none => s
  | some curr =>
      match s.net.previousHostState with
      | none =>
          { net := { s.net with
              previousHostState := some (deepCloneState curr),
              previousStateTime := s.net.currentStateTime,
              stateDirty := false },
            enemyMap := syncGuestEnemies curr.en s.enemyMap }
      | some prev =>
          let m1 := if s.net.stateDirty then syncGuestEnemies curr.en s.enemyMap
                    else s.enemyMap
          let m2 := if s.net.previousStateTime < s.net.currentStateTime then
              interpolateGuestEnemies piConst prev.en curr.en
                (blendT now s.net.currentStateTime s.net.previousStateTime) m1
            else m1
          { net := { s.net with
              stateDirty := if s.net.stateDirty then false else s.net.stateDirty },
            enemyMap := m2 }

theorem mlookup_syncFold (es : List (EnemyState α))
    (m : List (ℕ × GuestEnemyEntry α)) (i : ℕ) :
    (mlookup (es.foldl syncEnemyStep m) i).isSome ↔
      (mlookup m i).isSome ∨ i ∈ es.map EnemyState.id := by
  induction es generalizing m with
  | nil => simp
  | cons e es ih =>
      rw [List.foldl_cons, ih]
      have hstep : (mlookup (syncEnemyStep m e) i).isSome ↔
          i = e.id ∨ (mlookup m i).isSome := by
        rw [syncEnemyStep]
        simp only [mlookup_mset]
        by_cases hie : i = e.id <;> simp [hie]
      rw [hstep]
      simp only [List.map_cons, List.mem_cons]
      tauto

theorem mkeys_syncFold_nodup (es : List (EnemyState α))
    (m : List (ℕ × GuestEnemyEntry α)) (h : (mkeys m).Nodup) :
    (mkeys (es.foldl syncEnemyStep m)).Nodup := by
  induction es generalizing m with
  | nil => exact h
  | cons e es ih =>
      rw [List.foldl_cons]
      exact ih _ (mkeys_mset_nodup _ _ _ h)

theorem mlookup_syncGuestEnemies_isSome (es : List (EnemyState α))
    (m : List (ℕ × GuestEnemyEntry α)) (i : ℕ) :
    (mlookup (syncGuestEnemies es m) i).isSome ↔ i ∈ es.map EnemyState.id := by
  rw [syncGuestEnemies]
  rw [mlookup_filter_key (es.foldl syncEnemyStep m)
    (fun n => decide (n ∈ es.map EnemyState.id)) i]
  by_cases hi : i ∈ es.map EnemyState.id
  · simp [hi, mlookup_syncFold]
  · simp [hi]

theorem mkeys_syncGuestEnemies_nodup (es : List (EnemyState α))
    (m : List (ℕ × GuestEnemyEntry α)) (h : (mkeys m).Nodup) :
    (mkeys (syncGuestEnemies es m)).Nodup :=
  mkeys_filter_nodup _ _ (mkeys_syncFold_nodup es m h)

theorem mkeys_interpolateEnemyStep (piConst t : α)
    (prevMap : List (ℕ × EnemyState α)) (m : List (ℕ × GuestEnemyEntry α))
    (e : EnemyState α) :
    mkeys (interpolateEnemyStep piConst t prevMap m e) = mkeys m := by
  rw [interpolateEnemyStep]
  cases hml : mlookup m e.id with
  | none => rfl
  | some entry =>
      simp only
      exact mkeys_mset_of_mem m e.id _ (by rw [hml]; rfl)

theorem mkeys_interpolateGuestEnemies (piConst : α)
    (prevEs currEs : List (EnemyState α)) (t : α)
    (m : List (ℕ × GuestEnemyEntry α)) :
    mkeys (interpolateGuestEnemies piConst prevEs currEs t m) = mkeys m := by
  rw [interpolateGuestEnemies]
  have hfold : ∀ (es : List (EnemyState α)) (m0 : List (ℕ × GuestEnemyEntry α)),
      mkeys (es.foldl (interpolateEnemyStep piConst t
        (prevEs.foldl (fun acc pe => mset acc pe.id pe) [])) m0) = mkeys m0 := by
    intro es
    induction es with
    | nil => intro m0; rfl
    | cons e es ih =>
        intro m0
        rw [List.foldl_cons, ih, mkeys_interpolateEnemyStep]
  simp only [mkeys, List.map_map]
  have : ∀ p : ℕ × GuestEnemyEntry α,
      (Prod.fst ∘ fun p : ℕ × GuestEnemyEntry α =>
        if p.1 ∈ currEs.map EnemyState.id then p
        else (p.1, { p.2 with visible := false })) p = p.1 := by
    intro p
    by_cases hp : p.1 ∈ currEs.map EnemyState.id <;> simp [Function.comp, hp]
  rw [List.map_congr_left fun p _ => this p]
  exact hfold currEs m

/-- C3: processing a snapshot on the guest creates exactly one registered
proxy for every enemy id present in the snapshot that had none, removes
every registered proxy whose id is absent, and in the guest frame this
lifecycle synchronization runs before positional interpolation against that
snapshot, so after the frame every id of the current snapshot has a
(unique) live proxy and interpolation never touched a nonexistent one. -/
theorem c3_lifecycle (piConst now cst pst : α)
    (curr prev : Snapshot α) (m : List (ℕ × GuestEnemyEntry α)) (i : ℕ)
    (e : EnemyState α)
    (hnd : (mkeys m).Nodup)
    (he : e ∈ curr.en) :
    ((mlookup (syncGuestEnemies curr.en m) i).isSome ↔
        i ∈ curr.en.map EnemyState.id) ∧
    (mkeys (syncGuestEnemies curr.en m)).Nodup ∧
    (mlookup (animateGuestEnemyFrame piConst now
        ⟨⟨some curr, some prev, cst, pst, true⟩, m⟩).enemyMap e.id).isSome ∧
    (mkeys (animateGuestEnemyFrame piConst now
        ⟨⟨some curr, some prev, cst, pst, true⟩, m⟩).enemyMap).Nodup := by
  have hframe : (animateGuestEnemyFrame piConst now
      ⟨⟨some curr, some prev, cst, pst, true⟩, m⟩).enemyMap =
      (if pst < cst then
        interpolateGuestEnemies piConst prev.en curr.en
          (blendT now cst pst) (syncGuestEnemies curr.en m)
      else syncGuestEnemies curr.en m) := by
    simp [animateGuestEnemyFrame]
  have hkeys : mkeys (animateGuestEnemyFrame piConst now
      ⟨⟨some curr, some prev, cst, pst, true⟩, m⟩).enemyMap =
      mkeys (syncGuestEnemies curr.en m) := by
    rw [hframe]
    by_cases hlt : pst < cst
    · rw [if_pos hlt, mkeys_interpolateGuestEnemies]
    · rw [if_neg hlt]
  refine ⟨mlookup_syncGuestEnemies_isSome curr.en m i,
    mkeys_syncGuestEnemies_nodup curr.en m hnd, ?_, ?_⟩
  · rw [mlookup_isSome_iff, hkeys, ← mlookup_isSome_iff,
      mlookup_syncGuestEnemies_isSome]
    exact List.mem_map_of_mem EnemyState.id he
  · rw [hkeys]
    exact mkeys_syncGuestEnemies_nodup curr.en m hnd

/-- An enemy snapshot entry with the given id and otherwise inert fields,
for concrete evaluations. -/
def enemyStateOfId (i : ℕ) : EnemyState ℚ :=
  { id := i, x := 0, z := 0, y := 0, tk := "bat", tn := "Bat", sz := 0,
    hp := 1, mhp := 1, ry := 0, fl := 0, boss := none }

/-- A concrete current snapshot holding enemy ids 1 and 2. -/
def c3SnapA : Snapshot ℚ :=
  { snapOnly 1 with en := [enemyStateOfId 1, enemyStateOfId 2] }

/-- A concrete guest enemy-proxy map holding ids 2 and 3. -/
def c3MapA : List (ℕ × GuestEnemyEntry ℚ) :=
  [(2, newGuestEnemyEntry (enemyStateOfId 2)),
   (3, newGuestEnemyEntry (enemyStateOfId 3))]

/-- Witness for c3_lifecycle: a concrete dirty steady-state frame with a
snapshot containing ids 1 and 2 against a proxy map holding ids 2 and 3. -/
theorem c3_lifecycle_witness :
    (mkeys c3MapA).Nodup ∧ enemyStateOfId 1 ∈ c3SnapA.en ∧
    (((mlookup (syncGuestEnemies c3SnapA.en c3MapA) 3).isSome ↔
        (3 : ℕ) ∈ c3SnapA.en.map EnemyState.id) ∧
      (mkeys (syncGuestEnemies c3SnapA.en c3MapA)).Nodup ∧
      (mlookup (animateGuestEnemyFrame (0 : ℚ) 60
          ⟨⟨some c3SnapA, some (snapOnly 0), 50, 0, true⟩, c3MapA⟩).enemyMap
          (enemyStateOfId 1).id).isSome ∧
      (mkeys (animateGuestEnemyFrame (0 : ℚ) 60
          ⟨⟨some c3SnapA, some (snapOnly 0), 50, 0, true⟩,
            c3MapA⟩).enemyMap).Nodup) :=
  ⟨by decide, by decide,
    c3_lifecycle 0 60 50 0 c3SnapA (snapOnly 0) c3MapA 3 (enemyStateOfId 1)
      (by decide) (by decide)⟩

section SwapPop

variable {γ : Type*}

theorem dropLast_cons_ne (a : γ) (r : List γ) (h : r ≠ []) :
    (a :: r).dropLast = a :: r.dropLast := by
  cases r with
  | nil => exact absurd rfl h
  | cons c cs => rfl

theorem cons_getLastD_perm :
    ∀ (xs : List γ) (x d : γ),
      ((x :: xs).getLastD d :: (x :: xs).dropLast).Perm (x :: xs) := by
  intro xs
  induction xs with
  | nil => intro x d; simp
  | cons y ys ih =>
      intro x d
      have h1 : (x :: y :: ys).getLastD d = (y :: ys).getLastD x := by
        rw [List.getLastD_cons]
      have h2 : (x :: y :: ys).dropLast = x :: (y :: ys).dropLast := rfl
      rw [h1, h2]
      exact (List.Perm.swap x _ _).trans ((ih y x).cons x)

/-- JS swap-and-pop removal `arr[index] = arr[arr.length-1]; arr.pop()` is,
up to order, erasure of the element at `index`. -/
theorem set_getLastD_dropLast_perm :
    ∀ (l : List γ) (i : ℕ), i < l.length → ∀ d : γ,
      ((l.set i (l.getLastD d)).dropLast).Perm (l.eraseIdx i) := by
  intro l
  induction l with
  | nil => intro i hi d; simp at hi
  | cons a t ih =>
      intro i hi d
      cases i with
      | zero =>
          cases t with
          | nil => simp
          | cons x xs =>
              have hb : (a :: x :: xs).getLastD d = (x :: xs).getLastD a := by
                rw [List.getLastD_cons]
              rw [hb]
              exact cons_getLastD_perm xs x a
      | succ i =>
          cases t with
          | nil => simp at hi
          | cons x xs =>
              have hi2 : i < (x :: xs).length := Nat.lt_of_succ_lt_succ hi
              have hb : (a :: x :: xs).getLastD d = (x :: xs).getLastD a := by
                rw [List.getLastD_cons]
              have hne : (x :: xs).set i ((x :: xs).getLastD a) ≠ [] := by
                intro hh
                have := congrArg List.length hh
                simp at this
              rw [hb]
              show ((a :: (x :: xs).set i ((x :: xs).getLastD a)).dropLast).Perm
                ((a :: x :: xs).eraseIdx (i + 1))
              rw [dropLast_cons_ne _ _ hne, List.eraseIdx_cons_succ]
              exact (ih i hi2 a).cons a

end SwapPop

/-- MAX_ENEMIES from enemyManager.js. -/
def MAX_ENEMIES : ℕ := 600

/-- The identity-relevant fields of a host-side enemy object.  Gameplay
stat fields (hp, speed, damage, mesh, physics body, …) are reset alongside
the id but play no role in identity; type keys are coded as naturals. -/
structure Enemy where
  id : ℕ
  typeKey : ℕ
deriving DecidableEq, Repr

/-- Host-side enemy manager state: the monotone counter _nextEnemyId, the
active `enemies` array, the per-type object pools, and — as a history
variable for stating freshness — the list of every id ever assigned. -/
structure EMState where
  nextEnemyId : ℕ
  enemies : List Enemy
  pools : List (ℕ × List Enemy)
  assigned : List ℕ
deriving DecidableEq, Repr

/-- Module initializers of enemyManager.js. -/
def emInit : EMState :=
  { nextEnemyId := 0, enemies := [], pools := [], assigned := [] }

/-- spawnEnemy(type, x, z): refuse at the MAX_ENEMIES cap; otherwise pop the
type's pool and reset the pooled object (_resetEnemy assigns
`enemy.id = _nextEnemyId++`) or create a fresh object (_createEnemy assigns
`id: _nextEnemyId++`), then push onto the active array.  Both branches
consume one counter value. -/
def spawnEnemy (tk : ℕ) (s : EMState) : Option Enemy × EMState :=
  if MAX_ENEMIES ≤ s.enemies.length then (none, s)
  else
    match ((mlookup s.pools tk).getD []).getLast? with
    | some old =>
        (some { id := s.nextEnemyId, typeKey := old.typeKey },
          { nextEnemyId := s.nextEnemyId + 1,
            enemies := s.enemies ++ [{ id := s.nextEnemyId, typeKey := old.typeKey }],
            pools := mset s.pools tk ((mlookup s.pools tk).getD []).dropLast,
            assigned := s.nextEnemyId :: s.assigned })
    | none =>
        (some { id := s.nextEnemyId, typeKey := tk },
          { nextEnemyId := s.nextEnemyId + 1,
            enemies := s.enemies ++ [{ id := s.nextEnemyId, typeKey := tk }],
            pools := s.pools,
            assigned := s.nextEnemyId :: s.assigned })

/-- _killEnemy(index): push the enemy back onto its type pool, then remove
it from the active array by swap-and-pop (`enemies[index] = last;
enemies.pop()`).  Callers only pass live indices; an out-of-range index is
a no-op here. -/
def killEnemy (index : ℕ) (s : EMState) : EMState :=
  match s.enemies[index]? with
  | none => s
  | some e =>
      let pool := (mlookup s.pools e.typeKey).getD []
      { s with
        enemies := (s.enemies.set index (s.enemies.getLastD e)).dropLast,
        pools := mset s.pools e.typeKey (pool ++ [e]) }

/-- The operations of the enemy manager that move entities in or out of the
active array. -/
inductive EMOp where
  | spawn (tk : ℕ)
  | kill (index : ℕ)
deriving DecidableEq, Repr

def emStep (s : EMState) (op : EMOp) : EMState :=
  match op with
  | .spawn tk => (spawnEnemy tk s).2
  | .kill i => killEnemy i s

def emRun (ops : List EMOp) : EMState :=
  ops.foldl emStep emInit

/-- A state of the enemy manager is reachable when some operation sequence
from the module's initial state produces it. -/
def emReachable (s : EMState) : Prop :=
  ∃ ops, emRun ops = s

/-- Invariant of the enemy manager: active ids and all ever-assigned ids
are below the counter, and active ids are pairwise distinct. -/
def emInv (s : EMState) : Prop :=
  (∀ e ∈ s.enemies, e.id < s.nextEnemyId) ∧
  (∀ a ∈ s.assigned, a < s.nextEnemyId) ∧
  (s.enemies.map Enemy.id).Nodup

theorem emInv_init : emInv emInit := by
  refine ⟨?_, ?_, ?_⟩ <;> simp [emInit]

theorem emInv_push (s : EMState) (tkk : ℕ) (pools2 : List (ℕ × List Enemy))
    (h : emInv s) :
    emInv { nextEnemyId := s.nextEnemyId + 1,
            enemies := s.enemies ++ [{ id := s.nextEnemyId, typeKey := tkk }],
            pools := pools2,
            assigned := s.nextEnemyId :: s.assigned } := by
  obtain ⟨hb, ha, hn⟩ := h
  refine ⟨?_, ?_, ?_⟩
  · intro e he
    rcases List.mem_append.mp he with h1 | h1
    · exact lt_trans (hb e h1) (Nat.lt_succ_self _)
    · rw [List.mem_singleton] at h1
      rw [h1]
      exact Nat.lt_succ_self _
  · intro a haa
    rcases List.mem_cons.mp haa with h1 | h1
    · rw [h1]; exact Nat.lt_succ_self _
    · exact lt_trans (ha a h1) (Nat.lt_succ_self _)
  · rw [List.map_append]
    rw [List.nodup_append]
    refine ⟨hn, by simp, ?_⟩
    intro x hx hx2
    simp only [List.map_cons, List.map_nil, List.mem_singleton] at hx2
    rcases List.mem_map.mp hx with ⟨e, he, hex⟩
    have := hb e he
    rw [hex, hx2] at this
    exact lt_irrefl _ this

theorem emInv_spawn (tk : ℕ) (s : EMState) (h : emInv s) :
    emInv (spawnEnemy tk s).2 := by
  rw [spawnEnemy]
  by_cases hlen : MAX_ENEMIES ≤ s.enemies.length
  · rw [if_pos hlen]; exact h
  · rw [if_neg hlen]
    cases hpool : ((mlookup s.pools tk).getD []).getLast? with
    | some old => exact emInv_push s old.typeKey _ h
    | none => exact emInv_push s tk _ h

theorem emInv_kill (i : ℕ) (s : EMState) (h : emInv s) :
    emInv (killEnemy i s) := by
  obtain ⟨hb, ha, hn⟩ := h
  rw [killEnemy]
  cases hg : s.enemies[i]? with
  | none => exact ⟨hb, ha, hn⟩
  | some e =>
      have hi : i < s.enemies.length := by
        by_contra hcon
        rw [List.getElem?_eq_none (le_of_not_lt hcon)] at hg
        exact Option.noConfusion hg
      have hperm := set_getLastD_dropLast_perm s.enemies i hi e
      refine ⟨?_, ha, ?_⟩
      · intro e2 he2
        have hmem : e2 ∈ s.enemies.eraseIdx i := hperm.mem_iff.mp he2
        exact hb e2 ((s.enemies.eraseIdx_sublist i).subset hmem)
      · have hmp := hperm.map Enemy.id
        rw [hmp.nodup_iff]
        exact List.Nodup.sublist ((s.enemies.eraseIdx_sublist i).map Enemy.id) hn

theorem emInv_step (s : EMState) (op : EMOp) (h : emInv s) :
    emInv (emStep s op) := by
  cases op with
  | spawn tk => exact emInv_spawn tk s h
  | kill i => exact emInv_kill i s h

theorem emInv_reachable (s : EMState) (h : emReachable s) : emInv s := by
  obtain ⟨ops, rfl⟩ := h
  rw [emRun]
  have hgen : ∀ (l : List EMOp) (s0 : EMState), emInv s0 →
      emInv (l.foldl emStep s0) := by
    intro l
    induction l with
    | nil => intro s0 h0; exact h0
    | cons op l ih =>
        intro s0 h0
        rw [List.foldl_cons]
        exact ih _ (emInv_step s0 op h0)
  exact hgen ops emInit emInv_init

theorem spawnEnemy_some_id (tk : ℕ) (s : EMState) (e : Enemy) (s2 : EMState)
    (h : spawnEnemy tk s = (some e, s2)) : e.id = s.nextEnemyId := by
  rw [spawnEnemy] at h
  by_cases hlen : MAX_ENEMIES ≤ s.enemies.length
  · rw [if_pos hlen] at h
    exact Option.noConfusion (congrArg Prod.fst h)
  · rw [if_neg hlen] at h
    cases hpool : ((mlookup s.pools tk).getD []).getLast? with
    | some old =>
        rw [hpool] at h
        have := congrArg Prod.fst h
        simp only [Option.some.injEq] at this
        rw [← this]
    | none =>
        rw [hpool] at h
        have := congrArg Prod.fst h
        simp only [Option.some.injEq] at this
        rw [← this]

/-- The identity-relevant field of an XP gem object; value, attraction
state and mesh are external to id assignment. -/
structure Gem where
  id : ℕ
deriving DecidableEq, Repr

/-- xpManager.js state: the monotone counter _nextGemId (starting at 1),
the active `gems` array, the single pool, and the ever-assigned history
variable. -/
structure GMState where
  nextGemId : ℕ
  gems : List Gem
  pool : List Gem
  assigned : List ℕ
deriving DecidableEq, Repr

/-- Module initializers of xpManager.js (`_nextGemId = 1`). -/
def gmInit : GMState :=
  { nextGemId := 1, gems := [], pool := [], assigned := [] }

/-- spawnXpGem(x, z, value): pop the pool and reset the pooled object
(_resetGem assigns `gem.id = _nextGemId++`) or create a fresh one
(_createGem assigns `id: _nextGemId++`), then push onto the active array. -/
def spawnXpGem (s : GMState) : Gem × GMState :=
  match s.pool.getLast? with
  | some _old =>
      ({ id := s.nextGemId },
        { nextGemId := s.nextGemId + 1,
          gems := s.gems ++ [{ id := s.nextGemId }],
          pool := s.pool.dropLast,
          assigned := s.nextGemId :: s.assigned })
  | none =>
      ({ id := s.nextGemId },
        { nextGemId := s.nextGemId + 1,
          gems := s.gems ++ [{ id := s.nextGemId }],
          pool := s.pool,
          assigned := s.nextGemId :: s.assigned })

/-- _collectGem(index): hide the mesh, push the gem back onto the pool and
remove it from the active array with gems.splice(index, 1). -/
def collectGem (index : ℕ) (s : GMState) : GMState :=
  match s.gems[index]? with
  | none => s
  | some g =>
      { s with gems := s.gems.eraseIdx index, pool := s.pool ++ [g] }

/-- resetXpGems(): return every active gem to the pool. -/
def resetXpGems (s : GMState) : GMState :=
  { s with gems := [], pool := s.pool ++ s.gems }

inductive GMOp where
  | spawn
  | collect (index : ℕ)
  | reset
deriving DecidableEq, Repr

def gmStep (s : GMState) (op : GMOp) : GMState :=
  match op with
  | .spawn => (spawnXpGem s).2
  | .collect i => collectGem i s
  | .reset => resetXpGems s

def gmRun (ops : List GMOp) : GMState :=
  ops.foldl gmStep gmInit

def gmReachable (s : GMState) : Prop :=
  ∃ ops, gmRun ops = s

/-- Invariant of the gem manager: active and ever-assigned ids are below
the counter, and active ids are pairwise distinct. -/
def gmInv (s : GMState) : Prop :=
  (∀ g ∈ s.gems, g.id < s.nextGemId) ∧
  (∀ a ∈ s.assigned, a < s.nextGemId) ∧
  (s.gems.map Gem.id).Nodup

theorem gmInv_init : gmInv gmInit := by
  refine ⟨?_, ?_, ?_⟩ <;> simp [gmInit]

theorem gmInv_push (s : GMState) (pool2 : List Gem) (h : gmInv s) :
    gmInv { nextGemId := s.nextGemId + 1,
            gems := s.gems ++ [{ id := s.nextGemId }],
            pool := pool2,
            assigned := s.nextGemId :: s.assigned } := by
  obtain ⟨hb, ha, hn⟩ := h
  refine ⟨?_, ?_, ?_⟩
  · intro g hg
    rcases List.mem_append.mp hg with h1 | h1
    · exact lt_trans (hb g h1) (Nat.lt_succ_self _)
    · rw [List.mem_singleton] at h1
      rw [h1]
      exact Nat.lt_succ_self _
  · intro a haa
    rcases List.mem_cons.mp haa with h1 | h1
    · rw [h1]; exact Nat.lt_succ_self _
    · exact lt_trans (ha a h1) (Nat.lt_succ_self _)
  · rw [List.map_append, List.nodup_append]
    refine ⟨hn, by simp, ?_⟩
    intro x hx hx2
    simp only [List.map_cons, List.map_nil, List.mem_singleton] at hx2
    rcases List.mem_map.mp hx with ⟨g, hg, hgx⟩
    have := hb g hg
    rw [hgx, hx2] at this
    exact lt_irrefl _ this

theorem gmInv_step (s : GMState) (op : GMOp) (h : gmInv s) :
    gmInv (gmStep s op) := by
  obtain ⟨hb, ha, hn⟩ := h
  cases op with
  | spawn =>
      show gmInv (spawnXpGem s).2
      rw [spawnXpGem]
      cases hpool : s.pool.getLast? with
      | some old => exact gmInv_push s _ ⟨hb, ha, hn⟩
      | none => exact gmInv_push s _ ⟨hb, ha, hn⟩
  | collect i =>
      show gmInv (collectGem i s)
      rw [collectGem]
      cases hg : s.gems[i]? with
      | none => exact ⟨hb, ha, hn⟩
      | some g =>
          refine ⟨?_, ha, ?_⟩
          · intro g2 hg2
            exact hb g2 ((s.gems.eraseIdx_sublist i).subset hg2)
          · exact List.Nodup.sublist ((s.gems.eraseIdx_sublist i).map Gem.id) hn
  | reset =>
      show gmInv (resetXpGems s)
      exact ⟨by simp [resetXpGems], ha, by simp [resetXpGems]⟩

theorem gmInv_reachable (s : GMState) (h : gmReachable s) : gmInv s := by
  obtain ⟨ops, rfl⟩ := h
  rw [gmRun]
  have hgen : ∀ (l : List GMOp) (s0 : GMState), gmInv s0 →
      gmInv (l.foldl gmStep s0) := by
    intro l
    induction l with
    | nil => intro s0 h0; exact h0
    | cons op l ih =>
        intro s0 h0
        rw [List.foldl_cons]
        exact ih _ (gmInv_step s0 op h0)
  exact hgen ops gmInit gmInv_init

theorem spawnXpGem_id (s : GMState) (g : Gem) (s2 : GMState)
    (h : spawnXpGem s = (g, s2)) : g.id = s.nextGemId := by
  rw [spawnXpGem] at h
  cases hpool : s.pool.getLast? with
  | some old =>
      rw [hpool] at h
      injection h with h1 h2
      rw [← h1]
  | none =>
      rw [hpool] at h
      injection h with h1 h2
      rw [← h1]

/-- C4: in every reachable state of the enemy and gem managers, the active
identifiers of each category are pairwise distinct (so every encoded
snapshot carries unique ids per category), and a spawn — whether it reuses
a pooled object or creates a fresh one — assigns the current value of the
per-category monotone counter, an identifier never carried by any previous
logical entity of that category and distinct from every live one. -/
theorem c4_id_uniqueness (s : EMState) (g : GMState) (tk : ℕ) (e : Enemy)
    (s2 : EMState) (gm : Gem) (g2 : GMState)
    (hs : emReachable s) (hg : gmReachable g)
    (hspawn : spawnEnemy tk s = (some e, s2))
    (hgspawn : spawnXpGem g = (gm, g2)) :
    (s.enemies.map Enemy.id).Nodup ∧
    (g.gems.map Gem.id).Nodup ∧
    e.id = s.nextEnemyId ∧
    e.id ∉ s.assigned ∧
    e.id ∉ s.enemies.map Enemy.id ∧
    gm.id = g.nextGemId ∧
    gm.id ∉ g.assigned ∧
    gm.id ∉ g.gems.map Gem.id := by
  obtain ⟨hb, ha, hn⟩ := emInv_reachable s hs
  obtain ⟨hgb, hga, hgn⟩ := gmInv_reachable g hg
  have hid := spawnEnemy_some_id tk s e s2 hspawn
  have hgid := spawnXpGem_id g gm g2 hgspawn
  refine ⟨hn, hgn, hid, ?_, ?_, hgid, ?_, ?_⟩
  · intro hmem
    have := ha e.id hmem
    rw [hid] at this
    exact lt_irrefl _ this
  · intro hmem
    rcases List.mem_map.mp hmem with ⟨e2, he2, hex⟩
    have := hb e2 he2
    rw [hex, hid] at this
    exact lt_irrefl _ this
  · intro hmem
    have := hga gm.id hmem
    rw [hgid] at this
    exact lt_irrefl _ this
  · intro hmem
    rcases List.mem_map.mp hmem with ⟨g3, hg3, hgx⟩
    have := hgb g3 hg3
    rw [hgx, hgid] at this
    exact lt_irrefl _ this

/-- A concrete operation sequence exercising pooled reuse: two spawns, a
swap-and-pop kill, then a spawn that reuses the pooled object. -/
def c4EnemyOps : List EMOp :=
  [EMOp.spawn 0, EMOp.spawn 0, EMOp.kill 0, EMOp.spawn 0]

/-- A concrete gem sequence: spawn, collect (pooling the gem), spawn again
reusing the pooled object. -/
def c4GemOps : List GMOp :=
  [GMOp.spawn, GMOp.collect 0, GMOp.spawn]

/-- Witness for c4_id_uniqueness on concrete spawn/kill histories that
exercise pooled reuse. -/
theorem c4_id_uniqueness_witness :
    (emReachable (emRun c4EnemyOps) ∧ gmReachable (gmRun c4GemOps) ∧
      spawnEnemy 0 (emRun c4EnemyOps) =
        (some { id := 3, typeKey := 0 }, (spawnEnemy 0 (emRun c4EnemyOps)).2) ∧
      spawnXpGem (gmRun c4GemOps) =
        ({ id := 3 }, (spawnXpGem (gmRun c4GemOps)).2)) ∧
    (((emRun c4EnemyOps).enemies.map Enemy.id).Nodup ∧
      ((gmRun c4GemOps).gems.map Gem.id).Nodup ∧
      (Enemy.id { id := 3, typeKey := 0 } = (emRun c4EnemyOps).nextEnemyId) ∧
      Enemy.id { id := 3, typeKey := 0 } ∉ (emRun c4EnemyOps).assigned ∧
      Enemy.id { id := 3, typeKey := 0 } ∉ (emRun c4EnemyOps).enemies.map Enemy.id ∧
      (Gem.id { id := 3 } = (gmRun c4GemOps).nextGemId) ∧
      Gem.id { id := 3 } ∉ (gmRun c4GemOps).assigned ∧
      Gem.id { id := 3 } ∉ (gmRun c4GemOps).gems.map Gem.id) :=
  ⟨⟨⟨c4EnemyOps, rfl⟩, ⟨c4GemOps, rfl⟩, by decide, by decide⟩,
    c4_id_uniqueness (emRun c4EnemyOps) (gmRun c4GemOps) 0
      { id := 3, typeKey := 0 } (spawnEnemy 0 (emRun c4EnemyOps)).2
      { id := 3 } (spawnXpGem (gmRun c4GemOps)).2
      ⟨c4EnemyOps, rfl⟩ ⟨c4GemOps, rfl⟩ (by decide) (by decide)⟩

/-- Serializable upgrade choice data as carried by upgrade_show messages.
The gameplay effect behind a choice (weapon add/level, passive) lives in
upgradeMenu.js / weaponManager.js, which the spec scopes out as external
collaborators; handlers below are parametric in applyUpgradeChoice. -/
structure Choice where
  type : String
  id : String
  name : String
  description : String
deriving DecidableEq, Repr

/-- Messages the host emits while handling upgrade picks. -/
inductive HostOutMsg where
  | upgradeShow (playerIndex : ℕ) (choices : List Choice)
  | upgradeDone (playerIndex : ℕ)
deriving DecidableEq, Repr

/-- JS Array.prototype.indexOf: first index of x, or -1 when absent. -/
def jsIndexOf (l : List ℕ) (x : ℕ) : ℤ :=
  match l.findIdx? (fun a => a == x) with
  | some n => (n : ℤ)
  | none => -1

/-- The `case "upgrade_pick"` branch of _handleHostMessage: with a pending
offer for the slot and an in-range index, apply the picked candidate to the
player at the slot's frozen roster position (when that position is valid),
delete the pending offer and send upgrade_done; otherwise do nothing. -/
def handleUpgradePick {P : Type*} [Inhabited P]
    (applyUpgradeChoice : Choice → P → P)
    (pendingUpgradeChoices : List (ℕ × List Choice))
    (gamePlayerIndices : List ℕ) (players : List P)
    (pi : ℕ) (index : ℤ) :
    List (ℕ × List Choice) × List P × List HostOutMsg :=
  match mlookup pendingUpgradeChoices pi with
  | none => (pendingUpgradeChoices, players, [])
  | some pending =>
      if 0 ≤ index ∧ index < (pending.length : ℤ) then
        (mdelete pendingUpgradeChoices pi,
         (if 0 ≤ jsIndexOf gamePlayerIndices pi ∧
              jsIndexOf gamePlayerIndices pi < (players.length : ℤ) then
            players.set (jsIndexOf gamePlayerIndices pi).toNat
              (applyUpgradeChoice (pending.getD index.toNat ⟨"", "", "", ""⟩)
                (players.getD (jsIndexOf gamePlayerIndices pi).toNat default))
          else players),
         [HostOutMsg.upgradeDone pi])
      else (pendingUpgradeChoices, players, [])

/-- The guest-side upgrade menu state (showUpgradeMenuUI / hideUpgradeMenu
visibility and displayed candidate data). -/
structure GuestUpgradeUI where
  menuChoices : Option (List Choice)
deriving DecidableEq, Repr

/-- The `case "upgrade_show"` branch of _handleGuestMessage: if addressed to
this guest, display the choices; the player objects are untouched — the
guest only displays and (on click) transmits a choice index. -/
def handleGuestUpgradeShow {P : Type*} (myIndex : ℕ) (ui : GuestUpgradeUI)
    (players : List P) (msgPlayerIndex : ℕ) (choices : List Choice) :
    GuestUpgradeUI × List P :=
  if msgPlayerIndex = myIndex then ({ menuChoices := some choices }, players)
  else (ui, players)

/-- The `case "upgrade_done"` branch of _handleGuestMessage: dismiss the
menu if addressed to this guest; player objects are untouched. -/
def handleGuestUpgradeDone {P : Type*} (myIndex : ℕ) (ui : GuestUpgradeUI)
    (players : List P) (msgPlayerIndex : ℕ) : GuestUpgradeUI × List P :=
  if msgPlayerIndex = myIndex then ({ menuChoices := none }, players)
  else (ui, players)

/-- C5: for a pending offer stored for a guest's slot, a valid upgrade_pick
applies exactly the picked candidate exactly once to exactly that slot's
authoritative player (all other players unchanged), deletes the pending
offer (leaving other slots' offers alone) and sends upgrade_done; a second
upgrade_pick for the now-cleared slot is a complete no-op, and the guest's
handlers for the upgrade messages never modify any player object. -/
theorem c5_upgrade_exactly_once {P : Type*} [Inhabited P]
    (applyUpgradeChoice : Choice → P → P)
    (pendingUpgradeChoices : List (ℕ × List Choice))
    (gamePlayerIndices : List ℕ) (players : List P)
    (pi : ℕ) (index : ℤ) (pending : List Choice) (ai : ℕ)
    (q : ℕ) (index2 : ℤ) (ui : GuestUpgradeUI) (msgIdx myIdx : ℕ)
    (cs : List Choice) (gplayers : List P)
    (hpend : mlookup pendingUpgradeChoices pi = some pending)
    (hidx0 : 0 ≤ index) (hidxlen : index < (pending.length : ℤ))
    (hai : jsIndexOf gamePlayerIndices pi = (ai : ℤ))
    (hailen : ai < players.length)
    (hq : q ≠ pi) :
    (handleUpgradePick applyUpgradeChoice pendingUpgradeChoices
        gamePlayerIndices players pi index).2.1
      = players.set ai
          (applyUpgradeChoice (pending.getD index.toNat ⟨"", "", "", ""⟩)
            (players.getD ai default)) ∧
    mlookup (handleUpgradePick applyUpgradeChoice pendingUpgradeChoices
        gamePlayerIndices players pi index).1 pi = none ∧
    mlookup (handleUpgradePick applyUpgradeChoice pendingUpgradeChoices
        gamePlayerIndices players pi index).1 q
      = mlookup pendingUpgradeChoices q ∧
    (handleUpgradePick applyUpgradeChoice pendingUpgradeChoices
        gamePlayerIndices players pi index).2.2
      = [HostOutMsg.upgradeDone pi] ∧
    handleUpgradePick applyUpgradeChoice
        (handleUpgradePick applyUpgradeChoice pendingUpgradeChoices
          gamePlayerIndices players pi index).1
        gamePlayerIndices
        (handleUpgradePick applyUpgradeChoice pendingUpgradeChoices
          gamePlayerIndices players pi index).2.1
        pi index2
      = ((handleUpgradePick applyUpgradeChoice pendingUpgradeChoices
            gamePlayerIndices players pi index).1,
         (handleUpgradePick applyUpgradeChoice pendingUpgradeChoices
            gamePlayerIndices players pi index).2.1, []) ∧
    (handleGuestUpgradeShow myIdx ui gplayers msgIdx cs).2 = gplayers ∧
    (handleGuestUpgradeDone myIdx ui gplayers msgIdx).2 = gplayers := by
  have hcond : 0 ≤ index ∧ index < (pending.length : ℤ) := ⟨hidx0, hidxlen⟩
  have hacond : 0 ≤ jsIndexOf gamePlayerIndices pi ∧
      jsIndexOf gamePlayerIndices pi < (players.length : ℤ) := by
    rw [hai]
    exact ⟨Int.natCast_nonneg ai, by exact_mod_cast hailen⟩
  have hmain : handleUpgradePick applyUpgradeChoice pendingUpgradeChoices
      gamePlayerIndices players pi index
      = (mdelete pendingUpgradeChoices pi,
         players.set ai
           (applyUpgradeChoice (pending.getD index.toNat ⟨"", "", "", ""⟩)
             (players.getD ai default)),
         [HostOutMsg.upgradeDone pi]) := by
    rw [handleUpgradePick]
    split
    · next hnone =>
        rw [hpend] at hnone
        exact Option.noConfusion hnone
    · next pending2 hsome =>
        rw [hpend] at hsome
        injection hsome with hpe
        subst hpe
        rw [if_pos hcond, if_pos hacond, hai]
        simp
  have hdel : mlookup (mdelete pendingUpgradeChoices pi) pi = none := by
    rw [mlookup_mdelete]
    simp
  refine ⟨by rw [hmain], by rw [hmain]; exact hdel, ?_, by rw [hmain], ?_, ?_, ?_⟩
  · rw [hmain]
    simp only
    rw [mlookup_mdelete]
    rw [if_neg hq]
  · rw [hmain]
    simp only
    rw [handleUpgradePick, hdel]
  · rw [handleGuestUpgradeShow]
    by_cases h : msgIdx = myIdx <;> simp [h]
  · rw [handleGuestUpgradeDone]
    by_cases h : msgIdx = myIdx <;> simp [h]

/-- Witness for c5_upgrade_exactly_once: slot 2 holds a two-candidate
offer, the roster is [0, 2], players are upgrade counters and
applyUpgradeChoice increments the picked player's counter. -/
theorem c5_upgrade_exactly_once_witness :
    (mlookup [(2, [Choice.mk "passive" "hp" "A" "a",
                   Choice.mk "passive" "spd" "B" "b"])] 2
        = some [Choice.mk "passive" "hp" "A" "a",
                Choice.mk "passive" "spd" "B" "b"] ∧
      (0 : ℤ) ≤ 1 ∧ (1 : ℤ) < 2 ∧
      jsIndexOf [0, 2] 2 = (1 : ℤ) ∧ 1 < 2 ∧ (7 : ℕ) ≠ 2) ∧
    ((handleUpgradePick (fun _ p => p + 1)
        [(2, [Choice.mk "passive" "hp" "A" "a",
              Choice.mk "passive" "spd" "B" "b"])]
        [0, 2] [(10 : ℕ), 20] 2 1).2.1
      = [(10 : ℕ), 20].set 1
          ((fun (_ : Choice) (p : ℕ) => p + 1)
            ([Choice.mk "passive" "hp" "A" "a",
              Choice.mk "passive" "spd" "B" "b"].getD (1 : ℤ).toNat
                ⟨"", "", "", ""⟩)
            ([(10 : ℕ), 20].getD 1 default)) ∧
      mlookup (handleUpgradePick (fun _ p => p + 1)
        [(2, [Choice.mk "passive" "hp" "A" "a",
              Choice.mk "passive" "spd" "B" "b"])]
        [0, 2] [(10 : ℕ), 20] 2 1).1 2 = none ∧
      mlookup (handleUpgradePick (fun _ p => p + 1)
        [(2, [Choice.mk "passive" "hp" "A" "a",
              Choice.mk "passive" "spd" "B" "b"])]
        [0, 2] [(10 : ℕ), 20] 2 1).1 7
        = mlookup [(2, [Choice.mk "passive" "hp" "A" "a",
                        Choice.mk "passive" "spd" "B" "b"])] 7 ∧
      (handleUpgradePick (fun _ p => p + 1)
        [(2, [Choice.mk "passive" "hp" "A" "a",
              Choice.mk "passive" "spd" "B" "b"])]
        [0, 2] [(10 : ℕ), 20] 2 1).2.2 = [HostOutMsg.upgradeDone 2] ∧
      handleUpgradePick (fun _ p => p + 1)
          (handleUpgradePick (fun _ p => p + 1)
            [(2, [Choice.mk "passive" "hp" "A" "a",
                  Choice.mk "passive" "spd" "B" "b"])]
            [0, 2] [(10 : ℕ), 20] 2 1).1
          [0, 2]
          (handleUpgradePick (fun _ p => p + 1)
            [(2, [Choice.mk "passive" "hp" "A" "a",
                  Choice.mk "passive" "spd" "B" "b"])]
            [0, 2] [(10 : ℕ), 20] 2 1).2.1
          2 0
        = ((handleUpgradePick (fun _ p => p + 1)
              [(2, [Choice.mk "passive" "hp" "A" "a",
                    Choice.mk "passive" "spd" "B" "b"])]
              [0, 2] [(10 : ℕ), 20] 2 1).1,
           (handleUpgradePick (fun _ p => p + 1)
              [(2, [Choice.mk "passive" "hp" "A" "a",
                    Choice.mk "passive" "spd" "B" "b"])]
              [0, 2] [(10 : ℕ), 20] 2 1).2.1, []) ∧
      (handleGuestUpgradeShow 3 ⟨none⟩ [(10 : ℕ), 20] 2
        [Choice.mk "passive" "hp" "A" "a"]).2 = [(10 : ℕ), 20] ∧
      (handleGuestUpgradeDone 3 ⟨none⟩ [(10 : ℕ), 20] 2).2 = [(10 : ℕ), 20]) :=
  ⟨⟨rfl, by decide, by decide, rfl, by decide, by decide⟩,
    c5_upgrade_exactly_once (fun _ p => p + 1)
      [(2, [Choice.mk "passive" "hp" "A" "a",
            Choice.mk "passive" "spd" "B" "b"])]
      [0, 2] [(10 : ℕ), 20] 2 1
      [Choice.mk "passive" "hp" "A" "a", Choice.mk "passive" "spd" "B" "b"]
      1 7 0 ⟨none⟩ 2 3 [Choice.mk "passive" "hp" "A" "a"] [(10 : ℕ), 20]
      rfl (by decide) (by decide) rfl (by decide) (by decide)⟩

/-- C10: an upgrade_pick whose slot has no pending offer, or whose index is
negative or not below the pending candidate count, leaves the pending-offer
table and every player untouched and sends nothing. -/
theorem c10_invalid_pick_noop {P : Type*} [Inhabited P]
    (applyUpgradeChoice : Choice → P → P)
    (pendingUpgradeChoices : List (ℕ × List Choice))
    (gamePlayerIndices : List ℕ) (players : List P) (pi : ℕ) (index : ℤ)
    (hbad : ∀ pending ∈ mlookup pendingUpgradeChoices pi,
      ¬(0 ≤ index ∧ index < (pending.length : ℤ))) :
    handleUpgradePick applyUpgradeChoice pendingUpgradeChoices
        gamePlayerIndices players pi index
      = (pendingUpgradeChoices, players, []) := by
  rw [handleUpgradePick]
  split
  · rfl
  · next pending hp =>
      rw [if_neg (hbad pending (Option.mem_def.mpr hp))]

/-- Witness for c10_invalid_pick_noop: no pending offer is stored for
slot 4, so a pick for it does nothing. -/
theorem c10_invalid_pick_noop_witness :
    (∀ pending ∈ mlookup ([] : List (ℕ × List Choice)) 4,
      ¬((0 : ℤ) ≤ 0 ∧ (0 : ℤ) < (pending.length : ℤ))) ∧
    handleUpgradePick (fun (_ : Choice) (p : ℕ) => p + 1) [] [0, 4]
        [(10 : ℕ), 20] 4 0
      = ([], [(10 : ℕ), 20], []) :=
  ⟨fun pending hmem => absurd hmem (by simp [mlookup]),
    c10_invalid_pick_noop (fun _ p => p + 1) [] [0, 4] [(10 : ℕ), 20] 4 0
      (fun pending hmem => absurd hmem (by simp [mlookup]))⟩

/-- STATE_SEND_INTERVAL = 3 from main.js: send state every 3rd frame. -/
def STATE_SEND_INTERVAL : ℕ := 3

/-- The loop-level host state touched by the scheduler slice of
_animateHost. -/
structure HostLoopState (α : Type*) where
  gameTime : α
  paused : Bool
  gameOver : Bool
  sendFrameCounter : ℕ
deriving DecidableEq, Repr

/-- Observable effects of one host loop iteration. -/
structure HostTickEffects where
  rendered : Bool
  simStepped : Bool
  sentSnapshot : Bool
deriving DecidableEq, Repr

/-- One iteration of the _animateHost loop body:
`delta = Math.min(rawDelta, document.hidden ? 0.1 : 0.05)`; when paused or
over, only an optional render happens; otherwise the simulation always
steps (gameTime advances), rendering happens only when the tab is visible,
and `_sendFrameCounter++` triggers `_sendGameState()` exactly when the
counter reaches a multiple of STATE_SEND_INTERVAL — visible or hidden. -/
def animateHostTick (hidden : Bool) (rawDelta : α) (st : HostLoopState α) :
    HostLoopState α × HostTickEffects :=
  if st.paused || st.gameOver then
    (st, { rendered := !hidden, simStepped := false, sentSnapshot := false })
  else
    ({ st with
        gameTime := st.gameTime +
          min rawDelta (if hidden then 1 / 10 else 1 / 20),
        sendFrameCounter := st.sendFrameCounter + 1 },
     { rendered := !hidden, simStepped := true,
       sentSnapshot := (st.sendFrameCounter + 1) % STATE_SEND_INTERVAL == 0 })

/-- C8: on every running (non-paused, non-game-over) simulation tick the
host increments the frame counter and sends exactly one snapshot precisely
when the counter reaches a multiple of the fixed divisor 3 — a tick-count
rule, not a time-based one; the simulation step and the send are identical
whether the render surface is hidden or not, while rendering happens
exactly when it is visible. -/
theorem c8_snapshot_scheduler (hidden : Bool) (rawDelta : α)
    (st : HostLoopState α) (hp : st.paused = false)
    (hgo : st.gameOver = false) :
    (animateHostTick hidden rawDelta st).1.sendFrameCounter
      = st.sendFrameCounter + 1 ∧
    ((animateHostTick hidden rawDelta st).2.sentSnapshot = true ↔
      (st.sendFrameCounter + 1) % STATE_SEND_INTERVAL = 0) ∧
    (animateHostTick hidden rawDelta st).2.simStepped = true ∧
    ((animateHostTick hidden rawDelta st).2.rendered = true ↔
      hidden = false) ∧
    (animateHostTick true rawDelta st).2.sentSnapshot
      = (animateHostTick false rawDelta st).2.sentSnapshot ∧
    (animateHostTick true rawDelta st).2.simStepped
      = (animateHostTick false rawDelta st).2.simStepped := by
  cases hidden <;> simp [animateHostTick, hp, hgo]

/-- A concrete running host loop state whose counter is about to hit the
send divisor. -/
def c8HostA : HostLoopState ℚ :=
  { gameTime := 0, paused := false, gameOver := false, sendFrameCounter := 2 }

/-- Witness for c8_snapshot_scheduler: a hidden tick with counter 2
increments to 3 and sends. -/
theorem c8_snapshot_scheduler_witness :
    (c8HostA.paused = false ∧ c8HostA.gameOver = false) ∧
    ((animateHostTick true (1 : ℚ) c8HostA).1.sendFrameCounter
        = c8HostA.sendFrameCounter + 1 ∧
      ((animateHostTick true (1 : ℚ) c8HostA).2.sentSnapshot = true ↔
        (c8HostA.sendFrameCounter + 1) % STATE_SEND_INTERVAL = 0) ∧
      (animateHostTick true (1 : ℚ) c8HostA).2.simStepped = true ∧
      ((animateHostTick true (1 : ℚ) c8HostA).2.rendered = true ↔
        true = false) ∧
      (animateHostTick true (1 : ℚ) c8HostA).2.sentSnapshot
        = (animateHostTick false (1 : ℚ) c8HostA).2.sentSnapshot ∧
      (animateHostTick true (1 : ℚ) c8HostA).2.simStepped
        = (animateHostTick false (1 : ℚ) c8HostA).2.simStepped) :=
  ⟨⟨rfl, rfl⟩, c8_snapshot_scheduler true 1 c8HostA rfl rfl⟩

/-- Session roles assigned by the relay. -/
inductive Role where
  | host
  | guest
deriving DecidableEq, Repr

/-- Per-connection record kept by the relay (`clients` map values). -/
structure ClientInfo where
  role : Role
  playerIndex : ℕ
deriving DecidableEq, Repr

/-- The relay messages involved in connection handling. -/
inductive RelayMsg where
  | roleAssign (role : Role) (playerIndex : ℕ)
  | errorFull
  | playerList (players : List ℕ)
deriving DecidableEq, Repr

/-- Whether a relay message is a role assignment. -/
def RelayMsg.isRole : RelayMsg → Bool
  | .roleAssign _ _ => true
  | _ => false

/-- MAX_PLAYERS = 5 from server.js. -/
def MAX_PLAYERS : ℕ := 5

/-- server.js state: the clients map (insertion-ordered, keyed here by a
connection id) and the nextPlayerIndex counter. -/
structure RelayState where
  clients : List (ℕ × ClientInfo)
  nextPlayerIndex : ℕ
deriving DecidableEq, Repr

def relayInit : RelayState := { clients := [], nextPlayerIndex := 0 }

/-- The role computed for a new connection: host exactly when the clients
map is empty (`clients.size === 0`). -/
def assignRole (st : RelayState) : Role :=
  if st.clients.length = 0 then Role.host else Role.guest

/-- The record registered for a new connection
(`clients.set(ws, { role, playerIndex })` with `nextPlayerIndex++`). -/
def newClientInfo (st : RelayState) : ClientInfo :=
  { role := assignRole st, playerIndex := st.nextPlayerIndex }

/-- broadcastPlayerList's payload: the registered player indices, sorted
ascending. -/
def sortedIndices (l : List (ℕ × ClientInfo)) : List ℕ :=
  (l.map fun q => q.2.playerIndex).insertionSort (· ≤ ·)

/-- wss.on("connection"): at capacity, send an error and close immediately
without registering; otherwise the connection becomes host exactly when the
map is empty, is registered with the next player index, receives one role
message, and the ascending-sorted player list is broadcast to every
registered connection.  Result: (new state, (target, message) list, whether
the new connection was closed). -/
def handleConnection (st : RelayState) (conn : ℕ) :
    RelayState × List (ℕ × RelayMsg) × Bool :=
  if MAX_PLAYERS ≤ st.clients.length then
    (st, [(conn, RelayMsg.errorFull)], true)
  else
    (⟨st.clients ++ [(conn, newClientInfo st)], st.nextPlayerIndex + 1⟩,
      (conn, RelayMsg.roleAssign (assignRole st) st.nextPlayerIndex) ::
        (st.clients ++ [(conn, newClientInfo st)]).map (fun p =>
          (p.1, RelayMsg.playerList
            (sortedIndices (st.clients ++ [(conn, newClientInfo st)])))),
      false)

/-- C9: a connection arriving while fewer than five clients are registered
receives exactly one role message — host precisely when it is the first
registered connection, guest otherwise — and is registered under the next
player index without being closed; a connection arriving while five clients
are registered receives only an error message and is closed immediately,
with the relay state (all five role/slot assignments and the index counter)
left completely unchanged. -/
theorem c9_capacity (st stFull : RelayState) (conn conn2 : ℕ)
    (hlt : st.clients.length < MAX_PLAYERS)
    (hge : MAX_PLAYERS ≤ stFull.clients.length) :
    ((handleConnection st conn).2.1.filter
        (fun p => decide (p.1 = conn) && p.2.isRole))
      = [(conn, RelayMsg.roleAssign (assignRole st) st.nextPlayerIndex)] ∧
    (handleConnection st conn).2.2 = false ∧
    (handleConnection st conn).1.clients
      = st.clients ++ [(conn, newClientInfo st)] ∧
    (handleConnection st conn).1.nextPlayerIndex = st.nextPlayerIndex + 1 ∧
    handleConnection stFull conn2
      = (stFull, [(conn2, RelayMsg.errorFull)], true) := by
  have hnle : ¬(MAX_PLAYERS ≤ st.clients.length) := not_le.mpr hlt
  refine ⟨?_, ?_, ?_, ?_, ?_⟩
  · rw [handleConnection, if_neg hnle]
    simp only [List.filter_cons]
    rw [List.filter_map]
    have hfal : ((fun p : ℕ × RelayMsg => decide (p.1 = conn) && p.2.isRole) ∘
        (fun p : ℕ × ClientInfo => (p.1, RelayMsg.playerList
          (sortedIndices (st.clients ++ [(conn, newClientInfo st)])))))
        = fun _ => false := by
      funext p
      simp [Function.comp, RelayMsg.isRole]
    rw [hfal]
    simp [RelayMsg.isRole]
  · rw [handleConnection, if_neg hnle]
  · rw [handleConnection, if_neg hnle]
  · rw [handleConnection, if_neg hnle]
  · rw [handleConnection, if_pos hge]

/-- A full five-client relay state with the host in slot 0 and guests in
slots 1–4. -/
def relayFull : RelayState :=
  { clients := [(0, ⟨Role.host, 0⟩), (1, ⟨Role.guest, 1⟩),
                (2, ⟨Role.guest, 2⟩), (3, ⟨Role.guest, 3⟩),
                (4, ⟨Role.guest, 4⟩)],
    nextPlayerIndex := 5 }

/-- Witness for c9_capacity: the first connection on an empty relay gets
the host role; a sixth connection on a full relay gets an error and close
with the five assignments untouched. -/
theorem c9_capacity_witness :
    (relayInit.clients.length < MAX_PLAYERS ∧
      MAX_PLAYERS ≤ relayFull.clients.length) ∧
    (((handleConnection relayInit 0).2.1.filter
        (fun p => decide (p.1 = 0) && p.2.isRole))
      = [(0, RelayMsg.roleAssign (assignRole relayInit)
            relayInit.nextPlayerIndex)] ∧
      (handleConnection relayInit 0).2.2 = false ∧
      (handleConnection relayInit 0).1.clients
        = relayInit.clients ++ [(0, newClientInfo relayInit)] ∧
      (handleConnection relayInit 0).1.nextPlayerIndex
        = relayInit.nextPlayerIndex + 1 ∧
      handleConnection relayFull 5
        = (relayFull, [(5, RelayMsg.errorFull)], true)) :=
  ⟨⟨by decide, by decide⟩,
    c9_capacity relayInit relayFull 0 5 (by decide) (by decide)⟩

/-- C2 counterexample: for previous yaw π/2 and current yaw -π/2 the raw
difference is exactly -π, and the normalization of _interpolatePlayerState /
_interpolateGuestEnemies leaves it at -π, which does NOT lie in the
half-open interval (-π, π] the claim states. -/
theorem c2_normalization_counterexample :
    wrapAngle Real.pi (-(Real.pi / 2) - Real.pi / 2) = -Real.pi ∧
    ¬(-Real.pi < wrapAngle Real.pi (-(Real.pi / 2) - Real.pi / 2) ∧
        wrapAngle Real.pi (-(Real.pi / 2) - Real.pi / 2) ≤ Real.pi) := by
  have hpi := Real.pi_pos
  have hd : -(Real.pi / 2) - Real.pi / 2 = -Real.pi := by ring
  have h1 : ¬(Real.pi < -Real.pi) := by linarith
  have h2 : ¬((-Real.pi : ℝ) < -Real.pi) := lt_irrefl _
  have hw : wrapAngle Real.pi (-(Real.pi / 2) - Real.pi / 2) = -Real.pi := by
    simp only [wrapAngle, hd]
    rw [if_neg h1, if_neg h2]
  refine ⟨hw, ?_⟩
  rw [hw]
  exact fun h => lt_irrefl _ h.1

/-- C2 amended: for any raw yaw difference d in [-2π, 2π] (the range of a
difference of two atan2 results), the code's normalization lands in the
closed interval [-π, π] (a difference of exactly -π is left at -π rather
than mapped to π) and differs from d by a multiple of 2π, so the blend
traverses a shortest angular path; in particular for previous yaw 3.0 and
current yaw -3.0 the interpolated yaw at t = 0.5 is exactly π — the blend
passes through the ±π wrap, not through 0. -/
theorem c2_shorter_path (d : ℝ) (h1 : -(Real.pi * 2) ≤ d) (h2 : d ≤ Real.pi * 2) :
    (-Real.pi ≤ wrapAngle Real.pi d ∧ wrapAngle Real.pi d ≤ Real.pi) ∧
    (wrapAngle Real.pi d = d ∨ wrapAngle Real.pi d = d - Real.pi * 2 ∨
      wrapAngle Real.pi d = d + Real.pi * 2) ∧
    lerpAngle Real.pi 3 (-3) (1 / 2) = Real.pi := by
  have hpi := Real.pi_pos
  refine ⟨?_, ?_, ?_⟩
  · simp only [wrapAngle]
    split_ifs with ha hb hb <;> constructor <;> linarith
  · simp only [wrapAngle]
    split_ifs with ha hb hb
    · right; right; linarith
    · right; left; rfl
    · right; right; rfl
    · left; rfl
  · have hlt6 : Real.pi < 6 := by linarith [Real.pi_lt_four]
    have hna : ¬(Real.pi < (-3 : ℝ) - 3) := by intro h; linarith
    have hyb : ((-3 : ℝ) - 3) < -Real.pi := by linarith
    simp only [lerpAngle, wrapAngle]
    rw [if_neg hna, if_pos hyb]
    ring

/-- Witness for c2_shorter_path at the concrete difference d = -6 =
(-3.0) - 3.0 of the claim's yaw pair. -/
theorem c2_shorter_path_witness :
    (-(Real.pi * 2) ≤ (-6 : ℝ) ∧ (-6 : ℝ) ≤ Real.pi * 2) ∧
    ((-Real.pi ≤ wrapAngle Real.pi (-6) ∧ wrapAngle Real.pi (-6) ≤ Real.pi) ∧
      (wrapAngle Real.pi (-6) = -6 ∨ wrapAngle Real.pi (-6) = -6 - Real.pi * 2 ∨
        wrapAngle Real.pi (-6) = -6 + Real.pi * 2) ∧
      lerpAngle Real.pi 3 (-3) (1 / 2) = Real.pi) :=
  ⟨⟨by linarith [Real.pi_gt_three], by linarith [Real.pi_pos]⟩,
    c2_shorter_path (-6) (by linarith [Real.pi_gt_three]) (by linarith [Real.pi_pos])⟩

end SurvivalGame
